import Mathlib

/-!
Verification of the `handler` package of blizzy78/conditional-http
(file `handler/handler.go`) against its natural-language specification.

Modelling conventions, used throughout:
* Go strings are modelled as `List Char` (`GoStr`).  An absent HTTP header is
  the empty string, exactly as returned by Go's `http.Header.Get`.
* A Go runtime panic is modelled by the value `none` of an `Option` result.
* `time.Time` instants are opaque to this package (the spec lists date parsing
  as an external collaborator), so the RFC 1123 parser is a parameter
  `parseTime : GoStr → Option Int`; `t1.Before t2` is `<` and `t1.Equal t2`
  is `=` on the parsed instants.
* The response-writer decorator (`responseWriter` in the source) is modelled
  as an explicit state machine `RW`; calls made on it produce a trace of
  events (`HEv`) recording hook invocations and everything that reaches the
  underlying transport.  The hook (`beforeWriteHeader`) is modelled as a pure
  status-code transformer `Int → Int`; header mutation performed by hooks is
  delegated directly to the underlying writer in the source and plays no role
  in the claims proved here.
-/

abbrev GoStr := List Char

/-- The double-quote character (code point 34), written via `Char.ofNat`. -/
def dquote : Char := Char.ofNat 34

/-- Go `strings.HasPrefix s pre`. -/
def goHasPrefix : GoStr → GoStr → Bool
  | _, [] => true
  | [], _ :: _ => false
  | c :: s, p :: ps => c == p && goHasPrefix s ps

/-- Go `strings.HasSuffix s suf`. -/
def goHasSuffix (s suf : GoStr) : Bool :=
  goHasPrefix s.reverse suf.reverse

/-- Struct `ETag` from handler.go: an RFC 7232 entity-tag with opaque tag and
weak flag. -/
structure ETag where
  Tag : GoStr
  Weak : Bool
deriving DecidableEq

/-- Parser `eTagFromString` (handler.go lines 286-301).  Strips an optional `W/`
prefix, then requires the remainder to start and end with a double quote and
strips those quotes.  Result `some (e, ok)` mirrors Go's `(ETag, bool)`
return; `none` models the runtime panic that the Go code raises when the
remainder is the single character `"`: there `HasPrefix` and `HasSuffix` both
hold on the same character and the slice expression `s[1:len(s)-1]` is
`s[1:0]`, which is out of range. -/
def eTagFromString (s : GoStr) : Option (ETag × Bool) :=
  let weak := goHasPrefix s ['W', '/']
  let s' := if weak then s.drop 2 else s
  if goHasPrefix s' [dquote] && goHasSuffix s' [dquote] then
    if 2 ≤ s'.length then
      some (⟨(s'.drop 1).dropLast, weak⟩, true)
    else
      none
  else
    some (⟨[], false⟩, false)

/-- Formatter `ETag.String` (handler.go lines 303-313): wraps the tag in double quotes
unless it already starts or ends with one, then adds `W/` if weak. -/
def ETag.String (e : ETag) : GoStr :=
  let s := e.Tag
  let s := if !goHasPrefix s [dquote] && !goHasSuffix s [dquote] then
             dquote :: (s ++ [dquote])
           else s
  if e.Weak then 'W' :: '/' :: s else s

/-- Comparison `ETag.equal` (handler.go lines 315-320). -/
def ETag.equal (e e2 : ETag) (weakComparison : Bool) : Bool :=
  if !weakComparison && (e.Weak || e2.Weak) then false
  else e.Tag == e2.Tag

/-- Function `tryMatchETag` (handler.go lines 144-170).  Arguments `inm` and `eTagH`
are the `Get` results for the request's If-None-Match header and the
response's ETag header (empty string when absent).  Result `some (sc, b)`
mirrors Go's `(int, bool)`; `none` propagates a panic from
`eTagFromString`. -/
def tryMatchETag (weakETagComparison : Bool) (inm eTagH : GoStr)
    (statusCode : Int) : Option (Int × Bool) :=
  if inm = [] then some (0, false)
  else if eTagH = [] then some (statusCode, true)
  else
    match eTagFromString inm with
    | none => none
    | some (inmE, ok) =>
      if !ok then some (statusCode, true)
      else
        match eTagFromString eTagH with
        | none => none
        | some (e, ok2) =>
          if !ok2 then some (statusCode, true)
          else if inmE.equal e weakETagComparison then some (304, true)
          else some (statusCode, true)

/-- Function `tryMatchLastModified` (handler.go lines 172-197).  `parseTime` stands for
the external `time.Parse(time.RFC1123, ·)` collaborator; instants are
compared with `<` (`Before`) and `=` (`Equal`).  `304` is
`http.StatusNotModified`. -/
def tryMatchLastModified (parseTime : GoStr → Option Int) (ims lm : GoStr)
    (statusCode : Int) : Int :=
  if ims = [] ∨ lm = [] then statusCode
  else if ims = lm then 304
  else
    match parseTime ims with
    | none => statusCode
    | some imsT =>
      match parseTime lm with
      | none => statusCode
      | some lmT =>
        if lmT < imsT ∨ lmT = imsT then 304 else statusCode

/-- The header hook installed by `IfNoneMatchIfModifiedSinceHandler`
(handler.go lines 133-142): try the entity-tag match first; if it reports
`ok` (an If-None-Match header was present) return its status, otherwise fall
through to the Last-Modified comparison.  `none` propagates a panic. -/
def ifNoneMatchIfModifiedSinceHook (weakETagComparison : Bool)
    (parseTime : GoStr → Option Int) (inm ims eTagH lmH : GoStr)
    (statusCode : Int) : Option Int :=
  match tryMatchETag weakETagComparison inm eTagH statusCode with
  | none => none
  | some (sc, true) => some sc
  | some (_, false) => some (tryMatchLastModified parseTime ims lmH statusCode)

/-- The response writer handed to a hook: Go `nil` (what the doc comments for
`ETagFunc`/`LastModifiedFunc`/`ETagHandler` promise in `BeforeHeaders` mode),
the outer handler's live writer `w`, or the intercepting `responseWriter`
`rw`. -/
inductive HookView
  | nilView
  | rawWriter
  | interceptor
deriving DecidableEq

/-- Observable events of one request: a hook invocation (with the writer it
received, the status-code argument, and the returned status), and the calls
that reach the underlying transport writer `w.w` — its `WriteHeader` (the
one-time header commit) and its `Write`.  `downstreamOp` marks an action of
the downstream handler in `BeforeHeaders` mode, where it acts on the raw
writer directly. -/
inductive HEv
  | hookCall (view : HookView) (arg ret : Int)
  | transportHeader (code : Int)
  | transportBody (b : GoStr)
  | downstreamOp (c : Nat)
deriving DecidableEq

/-- State of the `responseWriter` struct (handler.go lines 51-59).
`hookActive` models `beforeWriteHeader != nil`; the wrapped writer `w.w` and
request `r` live outside the state (their use is recorded as events). -/
structure RW where
  statusCode : Int
  bodyBuf : Option (List GoStr)
  bufferBody : Bool
  headerWritten : Bool
  hookActive : Bool
deriving DecidableEq

/-- A fresh `responseWriter` as built by `headerHandler` (lines 208-215):
zero status, nil buffer, hook installed. -/
def RW.init (bufferBody : Bool) : RW :=
  { statusCode := 0, bodyBuf := none, bufferBody := bufferBody,
    headerWritten := false, hookActive := true }

/-- Lines 258-261 of `writeHeader`: a status below 100 becomes 200
(`http.StatusOK`). -/
def normStatus (sc : Int) : Int :=
  if sc < 100 then 200 else sc

/-- Method `responseWriter.writeHeader` (handler.go lines 253-274): once per request,
normalize the recorded status, run the hook if installed (clearing it), and
commit the resulting status to the underlying transport. -/
def RW.writeHeader (hook : Int → Int) (s : RW) : RW × List HEv :=
  if s.headerWritten then (s, [])
  else
    let sc := normStatus s.statusCode
    if s.hookActive then
      ({ s with hookActive := false, headerWritten := true },
       [HEv.hookCall HookView.interceptor sc (hook sc),
        HEv.transportHeader (hook sc)])
    else
      ({ s with headerWritten := true }, [HEv.transportHeader sc])

/-- Method `responseWriter.Write` (handler.go lines 228-238): buffering mode appends
to the in-memory buffer (allocating it on first use); pass-through mode
commits headers first, then forwards the bytes. -/
def RW.Write (hook : Int → Int) (s : RW) (b : GoStr) : RW × List HEv :=
  if s.bufferBody then
    ({ s with bodyBuf := some (s.bodyBuf.getD [] ++ [b]) }, [])
  else
    ((s.writeHeader hook).1, (s.writeHeader hook).2 ++ [HEv.transportBody b])

/-- Method `responseWriter.WriteHeader` (handler.go lines 241-243): records the
candidate status, commits nothing. -/
def RW.WriteHeader (s : RW) (statusCode : Int) : RW :=
  { s with statusCode := statusCode }

/-- Method `responseWriter.flush` (handler.go lines 245-251): a no-op when the body
buffer was never allocated; otherwise commits headers and copies the whole
buffer to the transport (`io.Copy` drains it). -/
def RW.flush (hook : Int → Int) (s : RW) : RW × List HEv :=
  match s.bodyBuf with
  | none => (s, [])
  | some chunks =>
    ({ (s.writeHeader hook).1 with bodyBuf := some [] },
     (s.writeHeader hook).2 ++ [HEv.transportBody chunks.flatten])

/-- One call on the intercepting writer: the downstream handler's `Write` and
`WriteHeader`, plus the package-internal `flush`. -/
inductive Call
  | write (b : GoStr)
  | setStatus (code : Int)
  | flushCall
deriving DecidableEq

def runCall (hook : Int → Int) (s : RW) : Call → RW × List HEv
  | .write b => s.Write hook b
  | .setStatus c => (s.WriteHeader c, [])
  | .flushCall => s.flush hook

def runCalls (hook : Int → Int) (s : RW) : List Call → RW × List HEv
  | [] => (s, [])
  | c :: cs =>
    ((runCalls hook (runCall hook s c).1 cs).1,
     (runCall hook s c).2 ++ (runCalls hook (runCall hook s c).1 cs).2)

/-- The `AfterHeaders`/`AfterResponse` branch of `headerHandler` (handler.go
lines 206-217): run the downstream handler's calls against a fresh
intercepting writer, then `flush`. -/
def interceptRun (hook : Int → Int) (bufferBody : Bool) (ops : List Call) :
    RW × List HEv :=
  runCalls hook (RW.init bufferBody) (ops ++ [Call.flushCall])

/-- Enumeration `ResponseMode` (handler.go lines 33-49). -/
inductive ResponseMode
  | BeforeHeaders
  | AfterHeaders
  | AfterResponse
deriving DecidableEq

/-- Function `headerHandler` (handler.go lines 199-220).  In `BeforeHeaders` mode the
hook is invoked first — line 203 reads `f(w, r, 0)`, passing the *live* outer
writer `w` and the literal status 0, the return value being discarded — and
only then does the downstream handler run (directly on `w`; its `i`-th action
is recorded as `downstreamOp i`).  `ETagHandler` (line 73) and
`LastModifiedHandler` (line 97) forward that same writer unchanged to the
caller-supplied producer.  In the other two modes the interceptor drives
everything. -/
def headerHandlerRun (f : Int → Int) (rm : ResponseMode) (ops : List Call) :
    List HEv :=
  match rm with
  | .BeforeHeaders =>
    HEv.hookCall HookView.rawWriter 0 (f 0) ::
      (List.range ops.length).map HEv.downstreamOp
  | .AfterHeaders => (interceptRun f false ops).2
  | .AfterResponse => (interceptRun f true ops).2

def isHookCall : HEv → Bool
  | .hookCall _ _ _ => true
  | _ => false

def isTransportHeader : HEv → Bool
  | .transportHeader _ => true
  | _ => false

/-- Number of hook invocations in a trace. -/
def hookCount (evs : List HEv) : Nat :=
  (evs.filter isHookCall).length

/-- Number of header commits on the underlying transport in a trace. -/
def headerCount (evs : List HEv) : Nat :=
  (evs.filter isTransportHeader).length

/-- True when no transport header commit occurs before the first hook
invocation of the trace. -/
def noHeaderBeforeHook : List HEv → Bool
  | [] => true
  | .transportHeader _ :: _ => false
  | .hookCall _ _ _ :: _ => true
  | _ :: rest => noHeaderBeforeHook rest

/-- The body chunks written by a call sequence, in order (one chunk per
`Write`, possibly empty). -/
def writesOf : List Call → List GoStr
  | [] => []
  | .write b :: cs => b :: writesOf cs
  | _ :: cs => writesOf cs

/-- Whether a call sequence contains at least one `Write`. -/
def hasWriteCall (ops : List Call) : Bool :=
  ops.any fun c => match c with | .write _ => true | _ => false

/-- The candidate status recorded after a call sequence, starting from
`sc` (the last `WriteHeader` wins). -/
def finalStatus (sc : Int) : List Call → Int
  | [] => sc
  | .setStatus c :: cs => finalStatus c cs
  | _ :: cs => finalStatus sc cs

@[simp]
lemma goHasPrefix_nil_right (s : GoStr) : goHasPrefix s [] = true := by
  cases s <;> rfl

@[simp]
lemma goHasPrefix_nil_left (p : Char) (ps : GoStr) :
    goHasPrefix [] (p :: ps) = false := rfl

@[simp]
lemma goHasPrefix_cons (c : Char) (s : GoStr) (p : Char) (ps : GoStr) :
    goHasPrefix (c :: s) (p :: ps) = ((c == p) && goHasPrefix s ps) := rfl

lemma goHasPrefix_dquote_of_not_mem {t : GoStr} (h : dquote ∉ t) :
    goHasPrefix t [dquote] = false := by
  cases t with
  | nil => rfl
  | cons c s =>
    have hc : c ≠ dquote := fun he => h (he ▸ List.mem_cons_self c s)
    simp [hc]

lemma goHasSuffix_dquote_of_not_mem {t : GoStr} (h : dquote ∉ t) :
    goHasSuffix t [dquote] = false := by
  unfold goHasSuffix
  have h' : dquote ∉ t.reverse := by simpa using h
  simpa using goHasPrefix_dquote_of_not_mem h'

lemma goHasSuffix_concat (t : GoStr) (a : Char) :
    goHasSuffix (t ++ [a]) [a] = true := by
  unfold goHasSuffix
  simp

/-- Status discipline of a single event, relative to the installed hook:
every hook invocation receives a normalized (≥ 100) candidate and returns
`hook` of it, and every committed status is the hook's return value for such
a normalized candidate. -/
def evOK (hook : Int → Int) : HEv → Prop
  | .hookCall _ a r => 100 ≤ a ∧ r = hook a
  | .transportHeader c => ∃ a, 100 ≤ a ∧ c = hook a
  | _ => True

lemma dquote_beq_self : (dquote == dquote) = true := by decide

lemma dquote_beq_W : (dquote == 'W') = false := by decide

lemma eTagFromString_quoted (t : GoStr) (weak : Bool) :
    eTagFromString ((if weak then ['W', '/'] else []) ++
        (dquote :: (t ++ [dquote]))) = some (⟨t, weak⟩, true) := by
  cases weak with
  | false =>
    unfold eTagFromString
    simp only [List.nil_append, goHasPrefix_cons, dquote_beq_W, Bool.false_and,
      Bool.false_eq_true, if_false]
    have hq : dquote :: (t ++ [dquote]) = (dquote :: t) ++ [dquote] := by simp
    have hs : goHasSuffix (dquote :: (t ++ [dquote])) [dquote] = true := by
      rw [hq]; exact goHasSuffix_concat _ _
    simp [hs, List.dropLast_concat]
  | true =>
    unfold eTagFromString
    simp only [List.cons_append, List.nil_append, goHasPrefix_cons]
    have hW : ('W' == 'W') = true := by decide
    have hSl : ('/' == '/') = true := by decide
    simp only [hW, hSl, Bool.true_and, goHasPrefix_nil_right, if_true]
    have hq : dquote :: (t ++ [dquote]) = (dquote :: t) ++ [dquote] := by simp
    have hs : goHasSuffix (dquote :: (t ++ [dquote])) [dquote] = true := by
      rw [hq]; exact goHasSuffix_concat _ _
    simp [hs, List.dropLast_concat]

/-- Claim C5: round-trip — for every well-formed entity-tag `e` (its tag
containing no double-quote character), parsing the formatted string recovers
`e` exactly with `ok = true`, for both weak and strong tags. -/
theorem eTag_roundTrip (e : ETag) (h : dquote ∉ e.Tag) :
    eTagFromString (ETag.String e) = some (e, true) := by
  obtain ⟨t, w⟩ := e
  have hp : goHasPrefix t [dquote] = false := goHasPrefix_dquote_of_not_mem h
  have hs : goHasSuffix t [dquote] = false := goHasSuffix_dquote_of_not_mem h
  have hstr : ETag.String ⟨t, w⟩ =
      (if w then ['W', '/'] else []) ++ (dquote :: (t ++ [dquote])) := by
    unfold ETag.String
    simp only [hp, hs, Bool.not_false, Bool.true_and, if_true]
    cases w <;> simp
  rw [hstr]
  exact eTagFromString_quoted t w

/-- Witness for Claim C5 at the concrete tags `foo` (strong) and `b` (weak). -/
theorem eTag_roundTrip_witness :
    (dquote ∉ (['f', 'o', 'o'] : GoStr)) ∧
    eTagFromString (ETag.String ⟨['f', 'o', 'o'], false⟩) =
      some (⟨['f', 'o', 'o'], false⟩, true) ∧
    eTagFromString (ETag.String ⟨['b'], true⟩) = some (⟨['b'], true⟩, true) :=
  ⟨by decide, eTag_roundTrip ⟨['f', 'o', 'o'], false⟩ (by decide),
   eTag_roundTrip ⟨['b'], true⟩ (by decide)⟩

/-- Claim C6: on the input consisting of a single double quote (with or
without `W/` prefix) the parser does not return `ok = false`; it panics (Go
slice bounds out of range in `s[1:len(s)-1]`), modelled here by `none`.  The
claim's required behaviour — rejection with `ok = false` — therefore fails on
exactly the single-double-quote remainder the claim calls out. -/
theorem eTagFromString_panics_on_lone_quote :
    eTagFromString [dquote] = none ∧
    eTagFromString ['W', '/', dquote] = none ∧
    eTagFromString [] = some (⟨[], false⟩, false) ∧
    eTagFromString ['W', '/'] = some (⟨[], false⟩, false) := by
  decide

/-- Claim C10: when the tag already starts or ends with a double quote,
`ETag.String` emits it as-is, adding only the `W/` prefix for weak tags — no
balancing quotes are added. -/
theorem string_preserves_quoted_tag (e : ETag)
    (h : goHasPrefix e.Tag [dquote] = true ∨ goHasSuffix e.Tag [dquote] = true) :
    ETag.String e = (if e.Weak then 'W' :: '/' :: e.Tag else e.Tag) := by
  unfold ETag.String
  rcases h with h | h <;> simp [h]

/-- Witness for Claim C10: a weak tag starting with a quote and a strong tag
ending with one are serialized without added quotes. -/
theorem string_preserves_quoted_tag_witness :
    (goHasPrefix ([dquote, 'a'] : GoStr) [dquote] = true ∨
       goHasSuffix ([dquote, 'a'] : GoStr) [dquote] = true) ∧
    ETag.String ⟨[dquote, 'a'], true⟩ =
      (if true then 'W' :: '/' :: [dquote, 'a'] else [dquote, 'a']) :=
  ⟨Or.inl (by decide), string_preserves_quoted_tag ⟨[dquote, 'a'], true⟩
    (Or.inl (by decide))⟩

lemma tryMatchETag_ok_of_ne_nil (weakCmp : Bool) {inm : GoStr} (eTagH : GoStr)
    (sc : Int) (h : inm ≠ []) (r : Int) :
    tryMatchETag weakCmp inm eTagH sc ≠ some (r, false) := by
  unfold tryMatchETag
  rw [if_neg h]
  repeat' split
  all_goals simp

lemma hook_eq_of_ne_nil (weakCmp : Bool) (pt : GoStr → Option Int)
    {inm : GoStr} (ims eTagH lmH : GoStr) (sc : Int) (h : inm ≠ []) :
    ifNoneMatchIfModifiedSinceHook weakCmp pt inm ims eTagH lmH sc =
      (tryMatchETag weakCmp inm eTagH sc).map Prod.fst := by
  unfold ifNoneMatchIfModifiedSinceHook
  cases he : tryMatchETag weakCmp inm eTagH sc with
  | none => rfl
  | some p =>
    obtain ⟨r, b⟩ := p
    cases b with
    | false => exact absurd he (tryMatchETag_ok_of_ne_nil weakCmp eTagH sc h r)
    | true => rfl

/-- Claim C3: when the request carries a non-empty If-None-Match header the
If-Modified-Since header is ignored entirely — the handler's result does not
depend on the If-Modified-Since value, the Last-Modified header, or the date
parser — and in each indeterminate case (no response ETag, If-None-Match
fails to parse, response ETag fails to parse) the status is unchanged. -/
theorem ifNoneMatch_overrides_ifModifiedSince (weakCmp : Bool)
    (pt pt' : GoStr → Option Int) (inm ims ims' eTagH lmH lmH' : GoStr)
    (sc : Int) (h : inm ≠ []) :
    (ifNoneMatchIfModifiedSinceHook weakCmp pt inm ims eTagH lmH sc =
       ifNoneMatchIfModifiedSinceHook weakCmp pt' inm ims' eTagH lmH' sc) ∧
    (eTagH = [] →
       ifNoneMatchIfModifiedSinceHook weakCmp pt inm ims eTagH lmH sc =
         some sc) ∧
    (∀ e, eTagFromString inm = some (e, false) →
       ifNoneMatchIfModifiedSinceHook weakCmp pt inm ims eTagH lmH sc =
         some sc) ∧
    (∀ e e', eTagFromString inm = some (e, true) →
       eTagFromString eTagH = some (e', false) →
       ifNoneMatchIfModifiedSinceHook weakCmp pt inm ims eTagH lmH sc =
         some sc) := by
  refine ⟨?_, ?_, ?_, ?_⟩
  · rw [hook_eq_of_ne_nil weakCmp pt ims eTagH lmH sc h,
      hook_eq_of_ne_nil weakCmp pt' ims' eTagH lmH' sc h]
  · intro he
    rw [hook_eq_of_ne_nil weakCmp pt ims eTagH lmH sc h]
    unfold tryMatchETag
    simp [h, he]
  · intro e hp
    rw [hook_eq_of_ne_nil weakCmp pt ims eTagH lmH sc h]
    unfold tryMatchETag
    by_cases he : eTagH = []
    · simp [h, he]
    · simp [h, he, hp]
  · intro e e' hp hp2
    rw [hook_eq_of_ne_nil weakCmp pt ims eTagH lmH sc h]
    unfold tryMatchETag
    by_cases he : eTagH = []
    · simp [h, he]
    · simp [h, he, hp, hp2]

/-- Witness for Claim C3: If-None-Match `"foo"` present with no response
ETag; an If-Modified-Since value and a parser that would otherwise produce
304 are ignored and the status stays 200. -/
theorem ifNoneMatch_overrides_ifModifiedSince_witness :
    ([dquote, 'f', 'o', 'o'] : GoStr) ≠ [] ∧
    ifNoneMatchIfModifiedSinceHook true (fun _ => some 0)
      [dquote, 'f', 'o', 'o'] ['d'] [] ['d'] 200 = some 200 :=
  ⟨by decide,
   (ifNoneMatch_overrides_ifModifiedSince true (fun _ => some 0)
      (fun _ => some 0) [dquote, 'f', 'o', 'o'] ['d'] ['d'] [] ['d'] ['d'] 200
      (by decide)).2.1 rfl⟩

lemma hook_no_inm (weakCmp : Bool) (pt : GoStr → Option Int)
    (ims eTagH lmH : GoStr) (sc : Int) :
    ifNoneMatchIfModifiedSinceHook weakCmp pt [] ims eTagH lmH sc =
      some (tryMatchLastModified pt ims lmH sc) := rfl

/-- Claim C4: with no If-None-Match header, the Last-Modified comparison
behaves as specified: absent headers leave the status unchanged;
byte-identical header values yield 304 with no date parsing (the result is
the same for every parser); a parse failure of either value leaves the status
unchanged; and when both parse, the status becomes 304 exactly when the
last-modified instant is before or equal to the if-modified-since instant. -/
theorem lastModified_comparison_spec (weakCmp : Bool)
    (pt : GoStr → Option Int) (ims lmH eTagH : GoStr) (sc : Int) :
    (ims = [] ∨ lmH = [] →
       ifNoneMatchIfModifiedSinceHook weakCmp pt [] ims eTagH lmH sc =
         some sc) ∧
    (ims ≠ [] → ims = lmH →
       ∀ pt', ifNoneMatchIfModifiedSinceHook weakCmp pt' [] ims eTagH lmH sc =
         some 304) ∧
    (ims ≠ [] → lmH ≠ [] → ims ≠ lmH → pt ims = none →
       ifNoneMatchIfModifiedSinceHook weakCmp pt [] ims eTagH lmH sc =
         some sc) ∧
    (ims ≠ [] → lmH ≠ [] → ims ≠ lmH → ∀ a, pt ims = some a → pt lmH = none →
       ifNoneMatchIfModifiedSinceHook weakCmp pt [] ims eTagH lmH sc =
         some sc) ∧
    (∀ a b, ims ≠ [] → lmH ≠ [] → ims ≠ lmH → pt ims = some a →
       pt lmH = some b →
       ifNoneMatchIfModifiedSinceHook weakCmp pt [] ims eTagH lmH sc =
         some (if b < a ∨ b = a then 304 else sc)) := by
  refine ⟨?_, ?_, ?_, ?_, ?_⟩
  · intro h
    rw [hook_no_inm]
    unfold tryMatchLastModified
    simp [h]
  · intro h1 h2 pt'
    rw [hook_no_inm]
    unfold tryMatchLastModified
    have hl : lmH ≠ [] := h2 ▸ h1
    simp [h1, hl, h2]
  · intro h1 h2 h3 hp
    rw [hook_no_inm]
    unfold tryMatchLastModified
    simp [h1, h2, h3, hp]
  · intro h1 h2 h3 a hp hq
    rw [hook_no_inm]
    unfold tryMatchLastModified
    simp [h1, h2, h3, hp, hq]
  · intro a b h1 h2 h3 hp hq
    rw [hook_no_inm]
    unfold tryMatchLastModified
    simp [h1, h2, h3, hp, hq]

/-- Witness for Claim C4: both headers present and different; a parser
mapping the request date to instant 5 and the response date to instant 3
yields 304 (3 is before 5). -/
theorem lastModified_comparison_spec_witness :
    (['a'] : GoStr) ≠ [] ∧ (['b'] : GoStr) ≠ [] ∧ (['a'] : GoStr) ≠ ['b'] ∧
    (fun s : GoStr => if s = ['a'] then some (5 : Int) else some 3) ['a'] =
      some 5 ∧
    (fun s : GoStr => if s = ['a'] then some (5 : Int) else some 3) ['b'] =
      some 3 ∧
    ifNoneMatchIfModifiedSinceHook true
      (fun s => if s = ['a'] then some 5 else some 3) [] ['a'] [] ['b'] 200 =
      some (if (3 : Int) < 5 ∨ (3 : Int) = 5 then 304 else 200) :=
  ⟨by decide, by decide, by decide, by decide, by decide,
   (lastModified_comparison_spec true
      (fun s => if s = ['a'] then some 5 else some 3) ['a'] ['b'] [] 200).2.2.2.2
      5 3 (by decide) (by decide) (by decide) (by decide) (by decide)⟩

/-- Claim C2: evaluation of the `BeforeHeaders` path.  The hook does run
first, before any downstream action — but the response-writer view it (and
hence the producer that `ETagHandler` wraps, which receives the very same
writer) is given is the live outer writer, not the Go `nil` promised by the
claim and by the doc comments of `ETagFunc`, `LastModifiedFunc` and
`ETagHandler`. -/
theorem beforeHeaders_view_is_live_writer :
    headerHandlerRun (fun sc => sc) ResponseMode.BeforeHeaders
        [Call.write ['x']] =
      [HEv.hookCall HookView.rawWriter 0 0, HEv.downstreamOp 0] ∧
    HookView.rawWriter ≠ HookView.nilView := by
  decide

/-- Claim C8 counterexample: in `BeforeHeaders` mode the hook's status-code
argument is the literal sentinel 0 (handler.go line 203, `f(w, r, 0)`), which
is below 100 — refuting the claim that for every request the hook's
status-code argument is never below 100. -/
theorem beforeHeaders_hook_gets_zero :
    headerHandlerRun (fun sc => sc) ResponseMode.BeforeHeaders [] =
      [HEv.hookCall HookView.rawWriter 0 0] ∧
    (0 : Int) < 100 := by
  decide

lemma writeHeader_written {hook : Int → Int} {s : RW}
    (h : s.headerWritten = true) : s.writeHeader hook = (s, []) := by
  unfold RW.writeHeader
  simp [h]

lemma writeHeader_fresh {hook : Int → Int} {s : RW}
    (h : s.headerWritten = false) (h2 : s.hookActive = true) :
    s.writeHeader hook =
      ({ s with hookActive := false, headerWritten := true },
       [HEv.hookCall HookView.interceptor (normStatus s.statusCode)
          (hook (normStatus s.statusCode)),
        HEv.transportHeader (hook (normStatus s.statusCode))]) := by
  unfold RW.writeHeader
  simp [h, h2]

@[simp]
lemma runCalls_nil (hook : Int → Int) (s : RW) :
    runCalls hook s [] = (s, []) := rfl

lemma runCalls_cons (hook : Int → Int) (s : RW) (c : Call) (cs : List Call) :
    runCalls hook s (c :: cs) =
      ((runCalls hook (runCall hook s c).1 cs).1,
       (runCall hook s c).2 ++ (runCalls hook (runCall hook s c).1 cs).2) := rfl

lemma runCalls_append (hook : Int → Int) (s : RW) (l1 l2 : List Call) :
    runCalls hook s (l1 ++ l2) =
      ((runCalls hook (runCalls hook s l1).1 l2).1,
       (runCalls hook s l1).2 ++ (runCalls hook (runCalls hook s l1).1 l2).2) := by
  induction l1 generalizing s with
  | nil => simp
  | cons c cs ih =>
    rw [List.cons_append, runCalls_cons, runCalls_cons, ih]
    simp [List.append_assoc]

@[simp]
lemma hookCount_nil : hookCount [] = 0 := rfl

lemma hookCount_append (a b : List HEv) :
    hookCount (a ++ b) = hookCount a + hookCount b := by
  simp [hookCount, List.filter_append]

@[simp]
lemma headerCount_nil : headerCount [] = 0 := rfl

lemma headerCount_append (a b : List HEv) :
    headerCount (a ++ b) = headerCount a + headerCount b := by
  simp [headerCount, List.filter_append]

lemma runCalls_buffer (hook : Int → Int) :
    ∀ (ops : List Call) (s : RW), s.bufferBody = true → Call.flushCall ∉ ops →
    runCalls hook s ops =
      ({ s with statusCode := finalStatus s.statusCode ops,
                bodyBuf := if writesOf ops = [] then s.bodyBuf
                           else some (s.bodyBuf.getD [] ++ writesOf ops) },
       []) := by
  intro ops
  induction ops with
  | nil =>
    intro s h hn
    simp [writesOf, finalStatus]
  | cons c cs ih =>
    intro s h hn
    have hn' : Call.flushCall ∉ cs := fun hm => hn (List.mem_cons_of_mem _ hm)
    cases c with
    | write b =>
      rw [runCalls_cons]
      have hrc : runCall hook s (Call.write b) =
          ({ s with bodyBuf := some (s.bodyBuf.getD [] ++ [b]) }, []) := by
        simp [runCall, RW.Write, h]
      rw [hrc, ih _ (by simp [h]) hn']
      simp only [writesOf, finalStatus]
      by_cases hw : writesOf cs = []
      · simp [hw]
      · simp [hw]
    | setStatus c' =>
      rw [runCalls_cons]
      have hrc : runCall hook s (Call.setStatus c') =
          ({ s with statusCode := c' }, []) := rfl
      rw [hrc, ih _ (by simp [h]) hn']
      simp [writesOf, finalStatus]
    | flushCall => exact absurd (List.mem_cons_self _ _) hn

lemma writesOf_nil_iff (ops : List Call) :
    writesOf ops = [] ↔ hasWriteCall ops = false := by
  induction ops with
  | nil => simp [writesOf, hasWriteCall]
  | cons c cs ih =>
    cases c <;> simp [writesOf, hasWriteCall, List.any_cons] at ih ⊢ <;>
      exact ih

lemma interceptRun_buffer_nowrite (hook : Int → Int) (ops : List Call)
    (hnf : Call.flushCall ∉ ops) (hw : writesOf ops = []) :
    interceptRun hook true ops =
      ({ RW.init true with statusCode := finalStatus 0 ops }, []) := by
  unfold interceptRun
  rw [runCalls_append, runCalls_buffer hook ops (RW.init true) rfl hnf]
  simp [hw, RW.init, runCalls_cons, runCall, RW.flush]

lemma interceptRun_buffer_write (hook : Int → Int) (ops : List Call)
    (hnf : Call.flushCall ∉ ops) (hw : writesOf ops ≠ []) :
    interceptRun hook true ops =
      ({ RW.init true with
          statusCode := finalStatus 0 ops,
          bodyBuf := some [],
          headerWritten := true,
          hookActive := false },
       [HEv.hookCall HookView.interceptor (normStatus (finalStatus 0 ops))
          (hook (normStatus (finalStatus 0 ops))),
        HEv.transportHeader (hook (normStatus (finalStatus 0 ops))),
        HEv.transportBody (writesOf ops).flatten]) := by
  unfold interceptRun
  rw [runCalls_append, runCalls_buffer hook ops (RW.init true) rfl hnf]
  have hfl : ({ RW.init true with
      statusCode := finalStatus 0 ops,
      bodyBuf := some ((RW.init true).bodyBuf.getD [] ++ writesOf ops) } :
        RW).flush hook =
      ({ RW.init true with
          statusCode := finalStatus 0 ops,
          bodyBuf := some [],
          headerWritten := true,
          hookActive := false },
       [HEv.hookCall HookView.interceptor (normStatus (finalStatus 0 ops))
          (hook (normStatus (finalStatus 0 ops))),
        HEv.transportHeader (hook (normStatus (finalStatus 0 ops))),
        HEv.transportBody (writesOf ops).flatten]) := by
    unfold RW.flush
    rw [writeHeader_fresh rfl rfl]
    simp [RW.init]
  simp only [RW.init, if_neg hw] at hfl ⊢
  rw [runCalls_cons]
  simp only [runCall, hfl, runCalls_nil]
  simp

/-- Claim C7: in `AfterResponse` (buffering) mode, the downstream phase sends
nothing to the transport — every `Write` is captured in the in-memory buffer,
in order — and when at least one `Write` occurred, the flush commits the
(possibly hook-overridden) status first and then delivers the concatenation
of all downstream writes, unchanged, in one transport write. -/
theorem afterResponse_buffering_flush (hook : Int → Int) (ops : List Call)
    (hnf : Call.flushCall ∉ ops) :
    (runCalls hook (RW.init true) ops).2 = [] ∧
    (runCalls hook (RW.init true) ops).1.bodyBuf =
      (if writesOf ops = [] then none else some (writesOf ops)) ∧
    (writesOf ops ≠ [] →
      (interceptRun hook true ops).2 =
        [HEv.hookCall HookView.interceptor (normStatus (finalStatus 0 ops))
           (hook (normStatus (finalStatus 0 ops))),
         HEv.transportHeader (hook (normStatus (finalStatus 0 ops))),
         HEv.transportBody (writesOf ops).flatten]) := by
  refine ⟨?_, ?_, ?_⟩
  · rw [runCalls_buffer hook ops (RW.init true) rfl hnf]
  · rw [runCalls_buffer hook ops (RW.init true) rfl hnf]
    by_cases hw : writesOf ops = [] <;> simp [hw, RW.init]
  · intro hw
    rw [interceptRun_buffer_write hook ops hnf hw]

/-- Witness for Claim C7: two writes and a downstream 204; the hook overrides
to 304; the transport sees the header commit followed by the concatenated
body. -/
theorem afterResponse_buffering_flush_witness :
    (Call.flushCall ∉ [Call.setStatus 204, Call.write ['a'], Call.write ['b']]) ∧
    (writesOf [Call.setStatus 204, Call.write ['a'], Call.write ['b']] ≠ [] →
      (interceptRun (fun _ => 304) true
          [Call.setStatus 204, Call.write ['a'], Call.write ['b']]).2 =
        [HEv.hookCall HookView.interceptor
           (normStatus (finalStatus 0
             [Call.setStatus 204, Call.write ['a'], Call.write ['b']]))
           ((fun _ => 304) (normStatus (finalStatus 0
             [Call.setStatus 204, Call.write ['a'], Call.write ['b']]))),
         HEv.transportHeader ((fun _ => 304) (normStatus (finalStatus 0
           [Call.setStatus 204, Call.write ['a'], Call.write ['b']]))),
         HEv.transportBody (writesOf
           [Call.setStatus 204, Call.write ['a'], Call.write ['b']]).flatten]) :=
  ⟨by decide,
   (afterResponse_buffering_flush (fun _ => 304)
      [Call.setStatus 204, Call.write ['a'], Call.write ['b']]
      (by decide)).2.2⟩

@[simp]
lemma hookCount_cons_hook (v : HookView) (a r : Int) (l : List HEv) :
    hookCount (HEv.hookCall v a r :: l) = hookCount l + 1 := by
  simp [hookCount, isHookCall, List.filter]

@[simp]
lemma hookCount_cons_header (c : Int) (l : List HEv) :
    hookCount (HEv.transportHeader c :: l) = hookCount l := by
  simp [hookCount, isHookCall, List.filter]

@[simp]
lemma hookCount_cons_body (b : GoStr) (l : List HEv) :
    hookCount (HEv.transportBody b :: l) = hookCount l := by
  simp [hookCount, isHookCall, List.filter]

lemma runCalls_nonbuffer_count (hook : Int → Int) :
    ∀ (ops : List Call) (s : RW), s.bufferBody = false → s.bodyBuf = none →
      Call.flushCall ∉ ops →
      ((runCalls hook s ops).1.bufferBody = false ∧
       (runCalls hook s ops).1.bodyBuf = none) ∧
      (s.headerWritten = true →
        hookCount (runCalls hook s ops).2 = 0 ∧
        (runCalls hook s ops).1.headerWritten = true) ∧
      (s.headerWritten = false → s.hookActive = true →
        hookCount (runCalls hook s ops).2 =
          (if hasWriteCall ops then 1 else 0)) := by
  intro ops
  induction ops with
  | nil =>
    intro s h hb hn
    refine ⟨⟨h, hb⟩, fun hw => ⟨rfl, hw⟩, fun _ _ => ?_⟩
    simp [hasWriteCall]
  | cons c cs ih =>
    intro s h hb hn
    have hn' : Call.flushCall ∉ cs := fun hm => hn (List.mem_cons_of_mem _ hm)
    cases c with
    | setStatus c' =>
      have hrc : runCall hook s (Call.setStatus c') =
          ({ s with statusCode := c' }, []) := rfl
      rw [runCalls_cons, hrc]
      obtain ⟨hA, hB, hC⟩ := ih ({ s with statusCode := c' }) (by simp [h])
        (by simp [hb]) hn'
      refine ⟨hA, ?_, ?_⟩
      · intro hw
        simpa [hookCount_append] using hB (by simp [hw])
      · intro hw ha
        have := hC (by simp [hw]) (by simp [ha])
        simpa [hookCount_append, hasWriteCall, List.any_cons] using this
    | write b =>
      cases hw : s.headerWritten with
      | true =>
        have hrc : runCall hook s (Call.write b) =
            (s, [HEv.transportBody b]) := by
          simp [runCall, RW.Write, h, writeHeader_written hw]
        rw [runCalls_cons, hrc]
        obtain ⟨hA, hB, _⟩ := ih s h hb hn'
        refine ⟨hA, ?_, ?_⟩
        · intro _
          obtain ⟨hB1, hB2⟩ := hB hw
          constructor
          · simp [hookCount_append, hB1]
          · exact hB2
        · intro hcontra
          exact absurd hcontra (by simp)
      | false =>
        cases ha : s.hookActive with
        | true =>
          have hrc : runCall hook s (Call.write b) =
              ({ s with hookActive := false, headerWritten := true },
               [HEv.hookCall HookView.interceptor (normStatus s.statusCode)
                  (hook (normStatus s.statusCode)),
                HEv.transportHeader (hook (normStatus s.statusCode)),
                HEv.transportBody b]) := by
            rw [runCall, RW.Write, if_neg (by simp [h]),
              writeHeader_fresh hw ha]
            rfl
          rw [runCalls_cons, hrc]
          obtain ⟨hA, hB, _⟩ := ih
            ({ s with hookActive := false, headerWritten := true })
            (by simp [h]) (by simp [hb]) hn'
          refine ⟨hA, ?_, ?_⟩
          · intro hcontra
            exact absurd hcontra (by simp)
          · intro _ _
            obtain ⟨hB1, _⟩ := hB (by simp)
            simp [hookCount_append, hB1, hasWriteCall, List.any_cons]
        | false =>
          have hrc : runCall hook s (Call.write b) =
              ({ s with headerWritten := true },
               [HEv.transportHeader (normStatus s.statusCode),
                HEv.transportBody b]) := by
            rw [runCall, RW.Write, if_neg (by simp [h])]
            unfold RW.writeHeader
            simp [hw, ha]
          rw [runCalls_cons, hrc]
          obtain ⟨hA, hB, _⟩ := ih ({ s with headerWritten := true })
            (by simp [h]) (by simp [hb]) hn'
          refine ⟨hA, ?_, ?_⟩
          · intro hcontra
            exact absurd hcontra (by simp)
          · intro _ hcontra
            exact absurd hcontra (by simp)
    | flushCall => exact absurd (List.mem_cons_self _ _) hn

lemma flush_none {hook : Int → Int} {s : RW} (h : s.bodyBuf = none) :
    s.flush hook = (s, []) := by
  unfold RW.flush
  rw [h]

/-- Claim C1 counterexample: a request whose downstream handler sets a status
but never calls `Write`.  In `AfterHeaders` mode the body buffer is never
allocated, so `flush` returns immediately: the hook is invoked zero times —
not once — and no header commit reaches the transport.  The same happens in
`AfterResponse` mode. -/
theorem hookCount_zero_write_counterexample :
    hookCount (interceptRun (fun sc => sc) false [Call.setStatus 204]).2 = 0 ∧
    hookCount (interceptRun (fun sc => sc) true [Call.setStatus 204]).2 = 0 ∧
    headerCount (interceptRun (fun sc => sc) false [Call.setStatus 204]).2 = 0 ∧
    headerCount (interceptRun (fun sc => sc) true [Call.setStatus 204]).2 = 0 := by
  decide

/-- Claim C1 (amended): in `AfterHeaders`/`AfterResponse` modes the hook is
invoked exactly once per request when the downstream handler performs at
least one `Write` call, and zero times when it performs none — in the
zero-write case the flush path returns early without running the hook. -/
theorem hookCount_interceptRun (hook : Int → Int) (buf : Bool)
    (ops : List Call) (hnf : Call.flushCall ∉ ops) :
    hookCount (interceptRun hook buf ops).2 =
      (if hasWriteCall ops then 1 else 0) := by
  cases buf with
  | false =>
    unfold interceptRun
    rw [runCalls_append]
    obtain ⟨⟨_, hBN⟩, _, hC⟩ :=
      runCalls_nonbuffer_count hook ops (RW.init false) rfl rfl hnf
    rw [runCalls_cons]
    have hfl : runCall hook (runCalls hook (RW.init false) ops).1
        Call.flushCall = ((runCalls hook (RW.init false) ops).1, []) :=
      flush_none hBN
    rw [hfl]
    simpa [hookCount_append] using hC rfl rfl
  | true =>
    by_cases hw : writesOf ops = []
    · rw [interceptRun_buffer_nowrite hook ops hnf hw]
      have hf : hasWriteCall ops = false := (writesOf_nil_iff ops).1 hw
      simp [hf]
    · rw [interceptRun_buffer_write hook ops hnf hw]
      have hf : hasWriteCall ops = true := by
        cases hh : hasWriteCall ops with
        | false => exact absurd ((writesOf_nil_iff ops).2 hh) hw
        | true => rfl
      simp [hf]

/-- Witness for Claim C1 (amended), in both modes: one write gives one hook
invocation; the hypothesis that the downstream never calls the internal
`flush` is discharged concretely. -/
theorem hookCount_interceptRun_witness :
    (Call.flushCall ∉ [Call.write ['a']]) ∧
    hookCount (interceptRun (fun sc => sc) false [Call.write ['a']]).2 =
      (if hasWriteCall [Call.write ['a']] then 1 else 0) ∧
    hookCount (interceptRun (fun sc => sc) true [Call.write ['a']]).2 =
      (if hasWriteCall [Call.write ['a']] then 1 else 0) :=
  ⟨by decide,
   hookCount_interceptRun (fun sc => sc) false [Call.write ['a']] (by decide),
   hookCount_interceptRun (fun sc => sc) true [Call.write ['a']] (by decide)⟩

lemma normStatus_ge (sc : Int) : 100 ≤ normStatus sc := by
  unfold normStatus
  split <;> omega

lemma writeHeader_evOK (hook : Int → Int) (s : RW)
    (hJ : s.headerWritten = false → s.hookActive = true) :
    (∀ e ∈ (s.writeHeader hook).2, evOK hook e) ∧
    ((s.writeHeader hook).1.headerWritten = false →
      (s.writeHeader hook).1.hookActive = true) := by
  cases hw : s.headerWritten with
  | true =>
    rw [writeHeader_written hw]
    exact ⟨by simp, fun h => hJ h⟩
  | false =>
    rw [writeHeader_fresh hw (hJ hw)]
    refine ⟨?_, by simp⟩
    intro e he
    simp only [List.mem_cons, List.not_mem_nil, or_false] at he
    rcases he with rfl | rfl
    · exact ⟨normStatus_ge _, rfl⟩
    · exact ⟨_, normStatus_ge _, rfl⟩

lemma runCalls_evOK (hook : Int → Int) :
    ∀ (ops : List Call) (s : RW),
      (s.headerWritten = false → s.hookActive = true) →
      (∀ e ∈ (runCalls hook s ops).2, evOK hook e) ∧
      ((runCalls hook s ops).1.headerWritten = false →
        (runCalls hook s ops).1.hookActive = true) := by
  intro ops
  induction ops with
  | nil => exact fun s hJ => ⟨by simp, hJ⟩
  | cons c cs ih =>
    intro s hJ
    rw [runCalls_cons]
    have hstep : (∀ e ∈ (runCall hook s c).2, evOK hook e) ∧
        ((runCall hook s c).1.headerWritten = false →
          (runCall hook s c).1.hookActive = true) := by
      cases c with
      | setStatus c' =>
        exact ⟨by simp [runCall, RW.WriteHeader], fun h => hJ (by simpa using h)⟩
      | write b =>
        unfold runCall RW.Write
        cases hbb : s.bufferBody with
        | true => exact ⟨by simp, fun h => hJ (by simpa using h)⟩
        | false =>
          simp only [Bool.false_eq_true, if_false]
          obtain ⟨h1, h2⟩ := writeHeader_evOK hook s hJ
          refine ⟨?_, h2⟩
          intro e he
          rcases List.mem_append.mp he with he | he
          · exact h1 e he
          · rcases List.mem_singleton.mp he with rfl
            trivial
      | flushCall =>
        unfold runCall RW.flush
        cases hbb : s.bodyBuf with
        | none => exact ⟨by simp, fun h => hJ (by simpa using h)⟩
        | some chunks =>
          obtain ⟨h1, h2⟩ := writeHeader_evOK hook s hJ
          refine ⟨?_, fun h => h2 (by simpa using h)⟩
          intro e he
          rcases List.mem_append.mp he with he | he
          · exact h1 e he
          · rcases List.mem_singleton.mp he with rfl
            trivial
    obtain ⟨hnew, hJ'⟩ := hstep
    obtain ⟨hrest, hJ''⟩ := ih (runCall hook s c).1 hJ'
    refine ⟨?_, hJ''⟩
    intro e he
    rcases List.mem_append.mp he with he | he
    · exact hnew e he
    · exact hrest e he

/-- Claim C8 (amended): on the interceptor commit path (`AfterHeaders` and
`AfterResponse` modes) any candidate status below 100, including the unset
default 0, is normalized to 200 before the hook observes it: every hook
invocation's status argument is at least 100, the committed code is always
the hook's return value for such a normalized argument, and therefore — for
any hook that maps valid statuses to valid statuses, as the package's hooks
do — the transport never observes a code below 100.  (In `BeforeHeaders`
mode the hook instead receives the raw sentinel 0; see the counterexample.) -/
theorem status_normalized_interceptor (hook : Int → Int) (buf : Bool)
    (ops : List Call) :
    (∀ v a r, HEv.hookCall v a r ∈ (interceptRun hook buf ops).2 →
      100 ≤ a ∧ r = hook a) ∧
    (∀ c, HEv.transportHeader c ∈ (interceptRun hook buf ops).2 →
      ∃ a, 100 ≤ a ∧ c = hook a) ∧
    ((∀ n : Int, 100 ≤ n → 100 ≤ hook n) →
      ∀ c, HEv.transportHeader c ∈ (interceptRun hook buf ops).2 → 100 ≤ c) := by
  obtain ⟨hall, _⟩ := runCalls_evOK hook (ops ++ [Call.flushCall])
    (RW.init buf) (fun _ => rfl)
  refine ⟨?_, ?_, ?_⟩
  · intro v a r hmem
    exact hall _ hmem
  · intro c hmem
    exact hall _ hmem
  · intro hmono c hmem
    obtain ⟨a, ha, rfl⟩ := hall _ hmem
    exact hmono a ha

/-- Witness for Claim C8 (amended): one downstream write with an unset status
and the identity hook — the hook argument is the normalized 200 and the
committed code is 200 as well. -/
theorem status_normalized_interceptor_witness :
    (100 ≤ (200 : Int) ∧ (200 : Int) = (fun sc : Int => sc) 200) ∧
    100 ≤ (200 : Int) :=
  ⟨(status_normalized_interceptor (fun sc => sc) false [Call.write ['x']]).1
      HookView.interceptor 200 200 (by decide),
   (status_normalized_interceptor (fun sc => sc) false [Call.write ['x']]).2.2
      (fun _ hn => hn) 200 (by decide)⟩

@[simp]
lemma headerCount_cons_hook (v : HookView) (a r : Int) (l : List HEv) :
    headerCount (HEv.hookCall v a r :: l) = headerCount l := by
  simp [headerCount, isTransportHeader, List.filter]

@[simp]
lemma headerCount_cons_header (c : Int) (l : List HEv) :
    headerCount (HEv.transportHeader c :: l) = headerCount l + 1 := by
  simp [headerCount, isTransportHeader, List.filter]

@[simp]
lemma headerCount_cons_body (b : GoStr) (l : List HEv) :
    headerCount (HEv.transportBody b :: l) = headerCount l := by
  simp [headerCount, isTransportHeader, List.filter]

@[simp]
lemma noHeaderBeforeHook_nil : noHeaderBeforeHook [] = true := rfl

@[simp]
lemma noHeaderBeforeHook_cons_hook (v : HookView) (a r : Int) (l : List HEv) :
    noHeaderBeforeHook (HEv.hookCall v a r :: l) = true := rfl

@[simp]
lemma noHeaderBeforeHook_cons_header (c : Int) (l : List HEv) :
    noHeaderBeforeHook (HEv.transportHeader c :: l) = false := rfl

@[simp]
lemma noHeaderBeforeHook_cons_body (b : GoStr) (l : List HEv) :
    noHeaderBeforeHook (HEv.transportBody b :: l) = noHeaderBeforeHook l := rfl

lemma runCall_written (hook : Int → Int) (s : RW) (c : Call)
    (hw : s.headerWritten = true) :
    headerCount (runCall hook s c).2 = 0 ∧
    (runCall hook s c).1.headerWritten = true := by
  cases c with
  | setStatus c' => exact ⟨rfl, by simp [runCall, RW.WriteHeader, hw]⟩
  | write b =>
    unfold runCall RW.Write
    cases hbb : s.bufferBody with
    | true => simp [hw]
    | false => simp [writeHeader_written hw, headerCount_append, hw]
  | flushCall =>
    unfold runCall RW.flush
    cases hbb : s.bodyBuf with
    | none => simp [hw]
    | some chunks => simp [hbb, writeHeader_written hw, headerCount_append, hw]

lemma runCall_fresh (hook : Int → Int) (s : RW) (c : Call)
    (hw : s.headerWritten = false) (ha : s.hookActive = true) :
    ((runCall hook s c).2 = [] ∧
     (runCall hook s c).1.headerWritten = false ∧
     (runCall hook s c).1.hookActive = true) ∨
    (∃ tail, (runCall hook s c).2 =
        HEv.hookCall HookView.interceptor (normStatus s.statusCode)
          (hook (normStatus s.statusCode)) ::
        HEv.transportHeader (hook (normStatus s.statusCode)) :: tail ∧
      headerCount tail = 0 ∧
      (runCall hook s c).1.headerWritten = true) := by
  cases c with
  | setStatus c' => exact Or.inl ⟨rfl, by simp [runCall, RW.WriteHeader, hw, ha]⟩
  | write b =>
    unfold runCall RW.Write
    cases hbb : s.bufferBody with
    | true => exact Or.inl ⟨by simp, by simp [hw], by simp [ha]⟩
    | false =>
      refine Or.inr ⟨[HEv.transportBody b], ?_, rfl, ?_⟩ <;>
        simp [writeHeader_fresh hw ha]
  | flushCall =>
    unfold runCall RW.flush
    cases hbb : s.bodyBuf with
    | none => exact Or.inl ⟨by simp, by simp [hw], by simp [ha]⟩
    | some chunks =>
      refine Or.inr ⟨[HEv.transportBody chunks.flatten], ?_, rfl, ?_⟩ <;>
        simp [writeHeader_fresh hw ha]

lemma runCalls_commit_once (hook : Int → Int) :
    ∀ (calls : List Call) (s : RW),
      (s.headerWritten = true →
        headerCount (runCalls hook s calls).2 = 0 ∧
        (runCalls hook s calls).1.headerWritten = true) ∧
      (s.headerWritten = false → s.hookActive = true →
        headerCount (runCalls hook s calls).2 ≤ 1 ∧
        noHeaderBeforeHook (runCalls hook s calls).2 = true) := by
  intro calls
  induction calls with
  | nil =>
    intro s
    exact ⟨fun hw => ⟨rfl, hw⟩, fun _ _ => ⟨by simp, rfl⟩⟩
  | cons c cs ih =>
    intro s
    rw [runCalls_cons]
    constructor
    · intro hw
      obtain ⟨h1, h2⟩ := runCall_written hook s c hw
      obtain ⟨h3, h4⟩ := (ih (runCall hook s c).1).1 h2
      exact ⟨by simp [headerCount_append, h1, h3], h4⟩
    · intro hw ha
      rcases runCall_fresh hook s c hw ha with ⟨h1, h2, h3⟩ | ⟨tail, h1, h2, h3⟩
      · obtain ⟨h4, h5⟩ := (ih (runCall hook s c).1).2 h2 h3
        rw [h1]
        exact ⟨by simpa [headerCount_append] using h4, by simpa using h5⟩
      · obtain ⟨h4, _⟩ := (ih (runCall hook s c).1).1 h3
        rw [h1]
        constructor
        · simp [headerCount_append, h2, h4]
        · simp

/-- Claim C9: over every sequence of `Write`, `WriteHeader`, and `flush`
calls on a fresh intercepting response writer (which always has the hook
installed), the underlying transport's header-commit operation is invoked at
most once, and never before the hook has run to completion. -/
theorem transport_commit_once_after_hook (hook : Int → Int) (buf : Bool)
    (calls : List Call) :
    headerCount (runCalls hook (RW.init buf) calls).2 ≤ 1 ∧
    noHeaderBeforeHook (runCalls hook (RW.init buf) calls).2 = true :=
  (runCalls_commit_once hook calls (RW.init buf)).2 rfl rfl
